import Mathlib

/-!
Verification of the AuraDB storage engine (Rust) against its specification.

Shallow embedding: each Lean definition translates one Rust item from the
repository sources (`src/storage.rs`, `src/api.rs`, `src/wal.rs`,
`src/vlog.rs`, `src/memtable.rs`).  Machine integers are modelled as `Nat`
(all arithmetic here stays far below the relevant `u32`/`u64` bounds, which
is noted wherever it matters); `Vec<u8>` is `List Nat` with entries < 256;
`Result<T>` is `Except ErrM T`; a `&self` method that mutates interior
state is modelled as `state → args → state × Except ErrM result`.
-/

namespace AuraDB

/-! ### Byte-string primitives

`Vec<u8>` comparison in Rust is lexicographic on bytes; `bytesLt` mirrors
the derived `Ord` used by `Vec<u8>` (and by `Key::cmp`, which compares only
`data`, `src/storage.rs` lines 52-56). -/

/-- Lexicographic strict order on byte strings, as Rust's `Ord` on `Vec<u8>`. -/
def bytesLt : List Nat → List Nat → Bool
  | [], [] => false
  | [], _ :: _ => true
  | _ :: _, [] => false
  | a :: as_, b :: bs => if a < b then true else if b < a then false else bytesLt as_ bs

/-- Lexicographic `≤` on byte strings (total order, so `a ≤ b ↔ ¬ b < a`). -/
def bytesLe (a b : List Nat) : Bool := !(bytesLt b a)

/-- Little-endian encoding of `n` into `width` bytes (`to_le_bytes` in Rust). -/
def leBytes : Nat → Nat → List Nat
  | 0, _ => []
  | w + 1, n => (n % 256) :: leBytes w (n / 256)

/-- Little-endian decoding of a byte list (`from_le_bytes` in Rust). -/
def leDecode (bs : List Nat) : Nat := bs.foldr (fun b acc => b + 256 * acc) 0

/-! ### CRC32

The repository uses the `crc32fast` crate, i.e. standard CRC-32/ISO-HDLC:
polynomial `0xEDB88320` (reflected), init `0xFFFFFFFF`, final xor
`0xFFFFFFFF`.  All intermediate values stay below `2^32`: `Nat.xor` never
exceeds the bit-width of its larger operand, and the shift is a division. -/

/-- One bit step of CRC-32: shift right, conditionally xor the polynomial. -/
def crc32Round (c : Nat) : Nat :=
  if c % 2 = 1 then Nat.xor (c / 2) 0xEDB88320 else c / 2

/-- Fold one byte into a running CRC-32 state (8 bit steps). -/
def crc32Byte (c b : Nat) : Nat :=
  crc32Round (crc32Round (crc32Round (crc32Round
    (crc32Round (crc32Round (crc32Round (crc32Round (Nat.xor c b))))))))

/-- CRC-32 of a byte list, as computed by `crc32fast::hash` /
`crc32fast::Hasher::{update, finalize}`. -/
def crc32 (bytes : List Nat) : Nat :=
  Nat.xor (bytes.foldl crc32Byte 0xFFFFFFFF) 0xFFFFFFFF

/-! ### Compression algorithm tags (`src/config.rs` lines 128-139)

`CompressionAlgorithm` is `None | Lz4 | Zstd | Snappy`; `as u8` yields the
declaration index. -/

/-- The `CompressionAlgorithm` enum from `src/config.rs`. -/
inductive CompressionAlgorithmM where
  | none | lz4 | zstd | snappy
deriving DecidableEq

/-- The `as u8` cast of `CompressionAlgorithm` (declaration order index). -/
def compTag : CompressionAlgorithmM → Nat
  | .none => 0
  | .lz4 => 1
  | .zstd => 2
  | .snappy => 3

/-! ### WAL file header (`src/wal.rs` lines 47-95) -/

/-- Magic bytes `AURADBWA` (`WalHeader::MAGIC`). -/
def walMagic : List Nat := [0x41, 0x55, 0x52, 0x41, 0x44, 0x42, 0x57, 0x41]

/-- The `WalHeader` struct from `src/wal.rs`. -/
structure WalHeaderM where
  magic : List Nat
  version : Nat
  createdAt : Nat
  checksum : Nat
deriving DecidableEq

/-- `WalHeader::new()`: wall-clock `created_at` is taken as a parameter;
the checksum field is initialised to `0` (the source comment says
"Will be calculated" but no caller ever assigns `calculate_checksum()`). -/
def WalHeaderM.new (createdAt : Nat) : WalHeaderM :=
  { magic := walMagic, version := 1, createdAt := createdAt, checksum := 0 }

/-- `WalHeader::calculate_checksum`: CRC-32 over magic ++ version(le u32)
++ created_at(le u64). -/
def WalHeaderM.calculateChecksum (h : WalHeaderM) : Nat :=
  crc32 (h.magic ++ leBytes 4 h.version ++ leBytes 8 h.createdAt)

/-- `WalHeader::validate`. -/
def WalHeaderM.validate (h : WalHeaderM) : Bool :=
  h.magic == walMagic && h.version == 1 && h.checksum == h.calculateChecksum

/-! ### Vlog segment header (`src/vlog.rs` lines 16-68) -/

/-- Magic bytes `AURADBVL` (`VlogHeader::MAGIC`). -/
def vlogMagic : List Nat := [0x41, 0x55, 0x52, 0x41, 0x44, 0x42, 0x56, 0x4C]

/-- The `VlogHeader` struct from `src/vlog.rs`. -/
structure VlogHeaderM where
  magic : List Nat
  version : Nat
  createdAt : Nat
  compression : CompressionAlgorithmM
  checksum : Nat
deriving DecidableEq

/-- `VlogHeader::new(compression)`: checksum initialised to `0` and never
assigned afterwards (the comment "Will be calculated" notwithstanding). -/
def VlogHeaderM.new (compression : CompressionAlgorithmM) (createdAt : Nat) : VlogHeaderM :=
  { magic := vlogMagic, version := 1, createdAt := createdAt
    compression := compression, checksum := 0 }

/-- `VlogHeader::calculate_checksum`: CRC-32 over magic ++ version(le u32)
++ created_at(le u64) ++ compression-as-u8 (one byte). -/
def VlogHeaderM.calculateChecksum (h : VlogHeaderM) : Nat :=
  crc32 (h.magic ++ leBytes 4 h.version ++ leBytes 8 h.createdAt ++ [compTag h.compression])

/-- `VlogHeader::validate`. -/
def VlogHeaderM.validate (h : VlogHeaderM) : Bool :=
  h.magic == vlogMagic && h.version == 1 && h.checksum == h.calculateChecksum

/-! ### Data model (`src/storage.rs`) -/

/-- The `Key` struct: byte data plus optional user metadata.  `Ord` on keys
compares only `data`; derived `PartialEq` compares both fields. -/
structure KeyM where
  data : List Nat
  metadata : Option (List Nat)
deriving DecidableEq

/-- `Key::new`. -/
def KeyM.new (data : List Nat) : KeyM := { data := data, metadata := none }

/-- The `Value` struct: byte data plus compression flag and optional checksum. -/
structure ValueM where
  data : List Nat
  compressed : Bool
  checksum : Option Nat
deriving DecidableEq

/-- `Value::new`: plain bytes, `compressed = false`, `checksum = None`. -/
def ValueM.new (data : List Nat) : ValueM :=
  { data := data, compressed := false, checksum := none }

/-- The `ValuePointer` struct (`src/storage.rs` lines 159-201). -/
structure ValuePointerM where
  segmentId : Nat
  offset : Nat
  length : Nat
  checksum : Option Nat
deriving DecidableEq

/-- `ValuePointer::with_checksum`. -/
def ValuePointerM.withChecksum (segmentId offset length checksum : Nat) : ValuePointerM :=
  { segmentId := segmentId, offset := offset, length := length, checksum := some checksum }

/-- `ValuePointer::is_valid`: all of segment id, offset and length non-zero. -/
def ValuePointerM.isValid (p : ValuePointerM) : Bool :=
  decide (p.segmentId > 0) && decide (p.offset > 0) && decide (p.length > 0)

/-- The `OpType` enum. -/
inductive OpTypeM where
  | put | delete | merge
deriving DecidableEq

/-- The `Entry` struct (`src/storage.rs` lines 203-280). -/
structure EntryM where
  key : KeyM
  value : Option ValueM
  valuePointer : Option ValuePointerM
  sequence : Nat
  opType : OpTypeM
  timestamp : Nat
deriving DecidableEq

/-- `Entry::new(key, value, sequence)`: inline value, op `Put`; the wall-clock
timestamp is taken as a parameter. -/
def EntryM.new (key : KeyM) (value : ValueM) (sequence timestamp : Nat) : EntryM :=
  { key := key, value := some value, valuePointer := none
    sequence := sequence, opType := .put, timestamp := timestamp }

/-- `Entry::delete(key, sequence)`: tombstone, no value, no pointer. -/
def EntryM.mkDelete (key : KeyM) (sequence timestamp : Nat) : EntryM :=
  { key := key, value := none, valuePointer := none
    sequence := sequence, opType := .delete, timestamp := timestamp }

/-- The `Batch` struct: ordered operations plus sequence and sync flag. -/
structure BatchM where
  operations : List EntryM
  sequence : Nat
  sync : Bool
deriving DecidableEq

/-- The `Range` struct (`src/storage.rs` lines 348-374): start documented
"(inclusive)", end documented "(exclusive)", optional limit. -/
structure RangeM where
  start : KeyM
  «end» : KeyM
  limit : Option Nat
deriving DecidableEq

/-! ### The HashMap storage model

`AuraEngine.storage` is a `HashMap<Vec<u8>, Vec<u8>>`.  We model it as an
association list with unique keys: `hmInsert` replaces the value of an
existing key in place and otherwise appends.  Rust's `HashMap` guarantees
no iteration order at all (it is randomly seeded); the model fixes
insertion order as the iteration order, which is one legitimate behaviour
of code that promises none. -/

/-- Association-list storage standing in for `HashMap<Vec<u8>, Vec<u8>>`. -/
abbrev HML := List (List Nat × List Nat)

/-- `HashMap::insert`: replace in place, else append. -/
def hmInsert : HML → List Nat → List Nat → HML
  | [], k, v => [(k, v)]
  | (k', v') :: rest, k, v =>
    if k' = k then (k', v) :: rest else (k', v') :: hmInsert rest k v

/-- `HashMap::get`. -/
def hmGet : HML → List Nat → Option (List Nat)
  | [], _ => none
  | (k', v') :: rest, k => if k' = k then some v' else hmGet rest k

/-- `HashMap::remove` (drops the entry for the key). -/
def hmRemove : HML → List Nat → HML
  | [], _ => []
  | (k', v') :: rest, k => if k' = k then rest else (k', v') :: hmRemove rest k

/-! ### Errors (`src/error.rs`) -/

/-- The `Error` enum, variant payloads elided. -/
inductive ErrM where
  | io | bincode | keyNotFound | invalidValuePointer | walCorruption
  | sstCorruption | valueLogCorruption | compaction | cache | config
  | learnedIndex | rlAgent | memory | concurrency | unknown
deriving DecidableEq

/-! ### The engine (`src/api.rs` lines 64-252)

`AuraEngine` holds the `HashMap` storage ("simplified for now" per its own
comment) and a `closed` flag.  Methods taking `&self` but mutating interior
state are modelled as `state → args → state × Except ErrM result`. -/

/-- The `Snapshot` struct (`src/api.rs` lines 254-260). -/
structure SnapshotM where
  data : HML
  timestamp : Nat
deriving DecidableEq

/-- The `AuraEngine` struct: in-memory storage plus the `closed` flag
(configuration and directory creation are not modelled). -/
structure AuraEngineM where
  storage : HML
  closed : Bool
deriving DecidableEq

/-- `AuraEngine::new`: empty storage, not closed. -/
def AuraEngineM.init : AuraEngineM := { storage := [], closed := false }

/-- `Engine::put for AuraEngine` (`src/api.rs` 169-173): insert
`key.data ↦ value.data` (metadata of both key and value is dropped),
always `Ok(())`. -/
def AuraEngineM.put (st : AuraEngineM) (key : KeyM) (value : ValueM) :
    AuraEngineM × Except ErrM Unit :=
  ({ st with storage := hmInsert st.storage key.data value.data }, .ok ())

/-- `Engine::get for AuraEngine` (`src/api.rs` 175-182): look up `key.data`
and rebuild the value with `Value::new` (default metadata); always `Ok`. -/
def AuraEngineM.get (st : AuraEngineM) (key : KeyM) : Except ErrM (Option ValueM) :=
  .ok ((hmGet st.storage key.data).map ValueM.new)

/-- `Engine::delete for AuraEngine` (`src/api.rs` 184-188): remove the key,
always `Ok(())`. -/
def AuraEngineM.delete (st : AuraEngineM) (key : KeyM) :
    AuraEngineM × Except ErrM Unit :=
  ({ st with storage := hmRemove st.storage key.data }, .ok ())

/-- `Engine::scan for AuraEngine` (`src/api.rs` 190-203): iterate the map and
keep pairs with `start.data ≤ key` and `key ≤ end.data` (both comparisons
inclusive in the source), rebuilding keys and values with `new`; the range's
`limit` is never consulted; always `Ok`. -/
def AuraEngineM.scan (st : AuraEngineM) (range : RangeM) :
    Except ErrM (List (KeyM × ValueM)) :=
  .ok (((st.storage.filter
      (fun kv => bytesLe range.start.data kv.1 && bytesLe kv.1 range.«end».data)).map
      (fun kv => (KeyM.new kv.1, ValueM.new kv.2))))

/-- One iteration of the `write_batch` loop (`src/api.rs` 208-225): `Put` and
`Merge` insert only when an inline value is present (otherwise the entry is
skipped), `Delete` removes the key. -/
def applyBatchEntry (storage : HML) (entry : EntryM) : HML :=
  match entry.opType with
  | .put =>
    match entry.value with
    | some value => hmInsert storage entry.key.data value.data
    | none => storage
  | .delete => hmRemove storage entry.key.data
  | .merge =>
    match entry.value with
    | some value => hmInsert storage entry.key.data value.data
    | none => storage

/-- `Engine::write_batch for AuraEngine` (`src/api.rs` 205-228): fold the
batch entries over the storage; always `Ok(())`. -/
def AuraEngineM.writeBatch (st : AuraEngineM) (batch : BatchM) :
    AuraEngineM × Except ErrM Unit :=
  ({ st with storage := batch.operations.foldl applyBatchEntry st.storage }, .ok ())

/-- `Engine::snapshot for AuraEngine` (`src/api.rs` 230-245): copy every
entry of the storage into a fresh map (the copy preserves the entries, so it
is the same association list here); wall-clock timestamp is a parameter. -/
def AuraEngineM.snapshot (st : AuraEngineM) (now : Nat) : Except ErrM SnapshotM :=
  .ok { data := st.storage, timestamp := now }

/-- `Engine::close for AuraEngine` (`src/api.rs` 247-251): set the `closed`
flag; nothing else; always `Ok(())`. -/
def AuraEngineM.close (st : AuraEngineM) : AuraEngineM × Except ErrM Unit :=
  ({ st with closed := true }, .ok ())

/-! ### Operation sequences

A system state pairs the engine with the snapshot handles callers have
received; engine methods never touch handed-out snapshots. -/

/-- Engine state together with the snapshot values callers hold. -/
structure SysM where
  engine : AuraEngineM
  snaps : List SnapshotM
deriving DecidableEq

/-- A client-visible engine operation. -/
inductive OpM where
  | put (key : KeyM) (value : ValueM)
  | del (key : KeyM)
  | wbatch (batch : BatchM)
  | snap (now : Nat)
  | close
deriving DecidableEq

/-- Apply one operation: mutators advance the engine, `snap` appends the
returned snapshot to the caller-held list. -/
def applyOp (s : SysM) : OpM → SysM
  | .put k v => { s with engine := (s.engine.put k v).1 }
  | .del k => { s with engine := (s.engine.delete k).1 }
  | .wbatch b => { s with engine := (s.engine.writeBatch b).1 }
  | .snap t =>
    match s.engine.snapshot t with
    | .ok sn => { s with snaps := s.snaps ++ [sn] }
    | .error _ => s
  | .close => { s with engine := s.engine.close.1 }

/-- Apply a list of operations in order. -/
def applyOps (s : SysM) (ops : List OpM) : SysM := ops.foldl applyOp s

/-- Does an operation modify the storage entry of key `kd`?  `Put`/`Merge`
batch entries without an inline value are skipped by `write_batch` and hence
do not count as writes. -/
def opWritesKey (op : OpM) (kd : List Nat) : Bool :=
  match op with
  | .put k _ => k.data == kd
  | .del k => k.data == kd
  | .wbatch b =>
    b.operations.any (fun e =>
      e.key.data == kd &&
        (match e.opType with
         | .delete => true
         | _ => e.value.isSome))
  | .snap _ => false
  | .close => false

/-! ### WAL records and the recovery reader (`src/wal.rs`)

`bincode` (v1, default configuration) encodes integers fixed-width
little-endian, `Vec<u8>` as a `u64` length followed by the bytes, `Option`
as one tag byte (`0`/`1`) followed by the payload, and an enum as a `u32`
variant index followed by the variant's fields. -/

/-- The `WalRecord` enum (`src/wal.rs` lines 16-45). -/
inductive WalRecordM where
  | put (key value : List Nat) (sequence timestamp : Nat)
  | putPointer (key : List Nat) (valuePointer : ValuePointerM) (sequence timestamp : Nat)
  | delete (key : List Nat) (sequence timestamp : Nat)
  | batch (operations : List WalRecordM) (sequence timestamp : Nat)

/-- `Read::read_exact` into an `n`-byte buffer: succeeds returning the bytes
and the remainder only when `n` bytes are available. -/
def readBytes (n : Nat) (bs : List Nat) : Option (List Nat × List Nat) :=
  if n ≤ bs.length then some (bs.take n, bs.drop n) else Option.none

/-- Read a little-endian `u32`. -/
def readU32 (bs : List Nat) : Option (Nat × List Nat) :=
  (readBytes 4 bs).map (fun p => (leDecode p.1, p.2))

/-- Read a little-endian `u64`. -/
def readU64 (bs : List Nat) : Option (Nat × List Nat) :=
  (readBytes 8 bs).map (fun p => (leDecode p.1, p.2))

/-- bincode `Vec<u8>`: `u64` length then that many bytes. -/
def readVec (bs : List Nat) : Option (List Nat × List Nat) := do
  let (n, r) ← readU64 bs
  readBytes n r

/-- bincode `Option<u32>`: one tag byte, then the value when the tag is 1. -/
def readOptU32 (bs : List Nat) : Option (Option Nat × List Nat) := do
  let (t, r) ← readBytes 1 bs
  match t with
  | [0] => some (Option.none, r)
  | [1] => (readU32 r).map (fun p => (some p.1, p.2))
  | _ => Option.none

/-- bincode decoding of a `ValuePointer` (fields in declaration order). -/
def readValuePointer (bs : List Nat) : Option (ValuePointerM × List Nat) := do
  let (sid, r1) ← readU64 bs
  let (off, r2) ← readU64 r1
  let (len, r3) ← readU32 r2
  let (ck, r4) ← readOptU32 r3
  some (⟨sid, off, len, ck⟩, r4)

/-- bincode decoding of one `WalRecord`.  The fuel argument only bounds the
nesting depth of `Batch` records; every nesting level consumes at least the
4 tag bytes, so any fuel larger than the input length behaves exactly like
the unbounded `bincode::deserialize`. -/
def decodeRecord : Nat → List Nat → Option (WalRecordM × List Nat)
  | 0, _ => Option.none
  | fuel + 1, bs => do
    let (tag, r1) ← readU32 bs
    if tag = 0 then do
      let (key, r2) ← readVec r1
      let (value, r3) ← readVec r2
      let (seq, r4) ← readU64 r3
      let (ts, r5) ← readU64 r4
      pure (.put key value seq ts, r5)
    else if tag = 1 then do
      let (key, r2) ← readVec r1
      let (vp, r3) ← readValuePointer r2
      let (seq, r4) ← readU64 r3
      let (ts, r5) ← readU64 r4
      pure (.putPointer key vp seq ts, r5)
    else if tag = 2 then do
      let (key, r2) ← readVec r1
      let (seq, r3) ← readU64 r2
      let (ts, r4) ← readU64 r3
      pure (.delete key seq ts, r4)
    else if tag = 3 then do
      let (count, r2) ← readU64 r1
      let (ops, r3) ← (List.replicate count ()).foldlM
        (fun acc _ => do
          let (r, rest) ← decodeRecord fuel acc.2
          pure (acc.1 ++ [r], rest)) (([] : List WalRecordM), r2)
      let (seq, r4) ← readU64 r3
      let (ts, r5) ← readU64 r4
      pure (.batch ops seq ts, r5)
    else Option.none

/-- `WalFileReader::read_record` (`src/wal.rs` lines 542-558): a failed
`read_exact` of the 4-byte length prefix returns `Ok(None)` ("End of file");
a failed `read_exact` of the payload propagates `Err(Io)` through `?`; a
failed `bincode::deserialize` propagates `Err(Bincode)`. -/
def readRecord (bs : List Nat) : Except ErrM (Option (WalRecordM × List Nat)) :=
  match readBytes 4 bs with
  | Option.none => .ok Option.none
  | some (lenB, rest) =>
    let recordLen := leDecode lenB
    match readBytes recordLen rest with
    | Option.none => .error .io
    | some (payload, rest') =>
      match decodeRecord (payload.length + 1) payload with
      | some (r, _) => .ok (some (r, rest'))
      | Option.none => .error .bincode

/-- Repeatedly call `readRecord` on one WAL file (the loop in
`WalReader::read_next` restricted to a single file): collect records until
`Ok(None)` or an error.  Fuel bounds the iteration count; every iteration
consumes at least 4 bytes, so fuel larger than the input length is never
exhausted. -/
def replayLoop : Nat → List Nat → List WalRecordM × Option ErrM
  | 0, _ => ([], Option.none)
  | fuel + 1, bs =>
    match readRecord bs with
    | .ok Option.none => ([], Option.none)
    | .ok (some (r, rest)) =>
      let (rs, e) := replayLoop fuel rest
      (r :: rs, e)
    | .error e => ([], some e)

/-- Replay of one WAL file: the records recovered before the reader stops,
and the error (if any) with which it stopped. -/
def walReplayFile (bs : List Nat) : List WalRecordM × Option ErrM :=
  replayLoop (bs.length + 1) bs

/-! ### Vlog segments and the value write path (`src/vlog.rs`) -/

/-- The `VlogEntry` metadata struct (`src/vlog.rs` lines 70-81). -/
structure VlogEntryM where
  length : Nat
  compression : CompressionAlgorithmM
  checksum : Nat
  timestamp : Nat
deriving DecidableEq

/-- bincode serialization of `VlogEntry`: length (u32), compression
(enum tag as u32), checksum (u32), timestamp (u64). -/
def bincodeVlogEntry (e : VlogEntryM) : List Nat :=
  leBytes 4 e.length ++ leBytes 4 (compTag e.compression) ++
    leBytes 4 e.checksum ++ leBytes 8 e.timestamp

/-- bincode serialization of `VlogHeader` as written by `VlogSegment::new`
(28 bytes: magic, version u32, created_at u64, compression tag u32,
checksum u32). -/
def bincodeVlogHeader (h : VlogHeaderM) : List Nat :=
  h.magic ++ leBytes 4 h.version ++ leBytes 8 h.createdAt ++
    leBytes 4 (compTag h.compression) ++ leBytes 4 h.checksum

/-- Lowercase hex digit. -/
def hexDigitChar (n : Nat) : Char :=
  if n < 10 then Char.ofNat (48 + n) else Char.ofNat (87 + n)

/-- Rust's `format!("{:016x}", n)`: sixteen lowercase hex digits, zero padded
(all ids and timestamps used here fit in 16 digits). -/
def hexPad16 (n : Nat) : List Char :=
  (List.range 16).reverse.map (fun i => hexDigitChar (n / 16 ^ i % 16))

/-- The segment filename `format!("vlog_{:016x}_{:016x}.seg", id, ts)`
(`src/vlog.rs` line 377). -/
def vlogFilename (segmentId timestamp : Nat) : String :=
  "vlog_" ++ String.mk (hexPad16 segmentId) ++ "_" ++ String.mk (hexPad16 timestamp) ++ ".seg"

/-- Rust's `str::parse::<u64>()`: an optional leading `+`, then one or more
ASCII digits and nothing else, value below `2^64`; anything else fails. -/
def rustParseU64 (s : String) : Option Nat :=
  let cs := s.toList
  let ds := match cs with
    | '+' :: rest => rest
    | _ => cs
  if ds.isEmpty then Option.none
  else if ds.all Char.isDigit then
    let n := ds.foldl (fun a c => a * 10 + (c.toNat - 48)) 0
    if n < 2 ^ 64 then some n else Option.none
  else Option.none

/-- The `VlogSegment` writer state: the created filename, the
`compress_values` configuration flag, the running offset, and the file
bytes written so far (buffered writes flattened). -/
structure VlogSegmentM where
  filename : String
  compressValues : Bool
  currentOffset : Nat
  fileBytes : List Nat
deriving DecidableEq

/-- `VlogSegment::new` (`src/vlog.rs` lines 371-410): build the filename
from segment id and wall-clock timestamp, write the bincode-serialized
header (whose checksum field is still 0), and start the offset at the
header length. -/
def vlogSegmentNew (segmentId timestamp : Nat) (compressValues : Bool)
    (alg : CompressionAlgorithmM) : VlogSegmentM :=
  let headerBytes := bincodeVlogHeader (VlogHeaderM.new alg timestamp)
  { filename := vlogFilename segmentId timestamp
    compressValues := compressValues
    currentOffset := headerBytes.length
    fileBytes := headerBytes }

/-- `VlogSegment::compress_value` (`src/vlog.rs` lines 458-462): the TODO
stub returns the plaintext, `CompressionAlgorithm::None` and the plaintext
CRC-32. -/
def compressValue (data : List Nat) : List Nat × CompressionAlgorithmM × Nat :=
  (data, CompressionAlgorithmM.none, crc32 data)

/-- `VlogSegment::write_value` (`src/vlog.rs` lines 413-455): choose the
(identity) compression, frame the entry as
`u32 meta_len | meta | value bytes`, and build the returned pointer whose
segment id is `path.file_name().parse::<u64>().unwrap_or(0)`, whose offset
is the pre-write offset, and whose length and checksum come from the
written data. -/
def VlogSegmentM.writeValue (seg : VlogSegmentM) (value : ValueM) (now : Nat) :
    VlogSegmentM × ValuePointerM :=
  let cdc : List Nat × CompressionAlgorithmM × Nat :=
    if seg.compressValues then compressValue value.data
    else (value.data, CompressionAlgorithmM.none, crc32 value.data)
  let compressedData := cdc.1
  let entry : VlogEntryM :=
    { length := compressedData.length, compression := cdc.2.1
      checksum := cdc.2.2, timestamp := now }
  let entryBytes := bincodeVlogEntry entry
  let entrySize := 4 + entryBytes.length + compressedData.length
  let vptr := ValuePointerM.withChecksum
    ((rustParseU64 seg.filename).getD 0)
    seg.currentOffset compressedData.length cdc.2.2
  ({ seg with
      fileBytes := seg.fileBytes ++ leBytes 4 entryBytes.length ++ entryBytes ++ compressedData
      currentOffset := seg.currentOffset + entrySize }, vptr)

/-! ### Memtables (`src/memtable.rs`)

The skip list's logical content is its level-0 chain.  `find_node`
(`src/memtable.rs` lines 113-159) walks with `pred` and `curr` advancing
together (both are reassigned to `next` only in the `Less` arm), so for
every level — in particular level 0 — `currs[level]` ends up at the last
node whose key is strictly below the target (or at the head sentinel), never
at a node equal to the target.  Upper levels only skip over smaller keys and
cannot change that outcome, and the random level of a node does not affect
the level-0 chain contents, so the chain (a list of entries after the head
sentinel, kept in node order) is a faithful model of the structure. -/

/-- The head sentinel entry installed by `SkipListMemtable::new`: empty key,
empty inline value, sequence 0 (its wall-clock timestamp is irrelevant and
modelled as 0). -/
def headEntry : EntryM := EntryM.new (KeyM.new []) (ValueM.new []) 0 0

/-- The skip list memtable, represented by its level-0 chain after the head. -/
structure SkipListM where
  chain : List EntryM
deriving DecidableEq

/-- `SkipListMemtable::new`. -/
def SkipListM.empty : SkipListM := { chain := [] }

/-- The entry of `currs[0]` returned by `find_node`: the last chain node with
key strictly below the target (traversal stops at the first node with key
`≥` target), or the head sentinel. -/
def slCurr (m : SkipListM) (kd : List Nat) : EntryM :=
  ((m.chain.takeWhile (fun e => bytesLt e.key.data kd)).getLast?).getD headEntry

/-- `SkipListMemtable::insert` (`src/memtable.rs` lines 163-198): if the
`currs[0]` node's key equals the new key (full `PartialEq` on `Key`, data
and metadata) the function returns without installing anything; otherwise
the node is linked directly after `preds[0]`, i.e. before the first node
with key `≥` the new key.  Counters are not modelled. -/
def SkipListM.insert (m : SkipListM) (entry : EntryM) : SkipListM :=
  if (slCurr m entry.key.data).key = entry.key then m
  else
    { chain :=
        m.chain.takeWhile (fun e => bytesLt e.key.data entry.key.data) ++
          entry :: m.chain.dropWhile (fun e => bytesLt e.key.data entry.key.data) }

/-- `SkipListMemtable::get` (`src/memtable.rs` lines 200-211): return the
`currs[0]` entry when its key equals the requested key (full `PartialEq`),
else `None`; always `Ok`. -/
def SkipListM.get (m : SkipListM) (key : KeyM) : Except ErrM (Option EntryM) :=
  .ok (if (slCurr m key.data).key = key then some (slCurr m key.data) else Option.none)

/-- The `BTreeMap<Key, Entry>` underlying `BTreeMemtable` and `ArtMemtable`,
as an association list.  `BTreeMap` compares keys with `Ord` (which on `Key`
compares only `data`); on an existing key the value is replaced and the
stored key kept.  Tree ordering is not modelled (the claims use only
`insert`/`get`). -/
abbrev BTreeMapM := List (KeyM × EntryM)

/-- `BTreeMap::insert(key, entry)` keyed by `Ord` on `Key` (data only). -/
def btmInsert : BTreeMapM → KeyM → EntryM → BTreeMapM
  | [], k, e => [(k, e)]
  | (k', e') :: rest, k, e =>
    if k'.data = k.data then (k', e) :: rest else (k', e') :: btmInsert rest k e

/-- `BTreeMap::get(key).cloned()` keyed by `Ord` on `Key` (data only). -/
def btmGet : BTreeMapM → KeyM → Option EntryM
  | [], _ => Option.none
  | (k', e') :: rest, k => if k'.data = k.data then some e' else btmGet rest k

/-- `BTreeMemtable::insert` (`src/memtable.rs` lines 273-291):
`map.insert(entry.key.clone(), entry.clone())`; memory accounting is not
modelled; always `Ok(())`. -/
def btreeInsert (map : BTreeMapM) (entry : EntryM) : BTreeMapM :=
  btmInsert map entry.key entry

/-- `BTreeMemtable::get` (`src/memtable.rs` lines 293-296); always `Ok`. -/
def btreeGet (map : BTreeMapM) (key : KeyM) : Except ErrM (Option EntryM) :=
  .ok (btmGet map key)

/-- `ArtMemtable::insert` (`src/memtable.rs` lines 360-378): the "simplified"
ART is the same `BTreeMap` code as `BTreeMemtable`. -/
def artInsert (map : BTreeMapM) (entry : EntryM) : BTreeMapM :=
  btmInsert map entry.key entry

/-- `ArtMemtable::get` (`src/memtable.rs` lines 380-383). -/
def artGet (map : BTreeMapM) (key : KeyM) : Except ErrM (Option EntryM) :=
  .ok (btmGet map key)

/-- Strict ascending lexicographic order of a key sequence (the order the
specification promises for `scan` output). -/
def keysStrictAscending : List (List Nat) → Bool
  | [] => true
  | [_] => true
  | a :: b :: rest => bytesLt a b && keysStrictAscending (b :: rest)

deriving instance DecidableEq for Except

/-! ### Association-list lemmas -/

theorem hmGet_hmInsert_self (m : HML) (k v : List Nat) :
    hmGet (hmInsert m k v) k = some v := by
  induction m with
  | nil => simp [hmInsert, hmGet]
  | cons kv rest ih =>
    by_cases h : kv.1 = k
    · simp [hmInsert, hmGet, h]
    · simp [hmInsert, hmGet, h, ih]

theorem hmGet_hmInsert_ne (m : HML) (k v q : List Nat) (h : k ≠ q) :
    hmGet (hmInsert m k v) q = hmGet m q := by
  induction m with
  | nil => simp [hmInsert, hmGet, h]
  | cons kv rest ih =>
    by_cases hk : kv.1 = k
    · subst hk; simp [hmInsert, hmGet, h]
    · by_cases hq : kv.1 = q <;> simp [hmInsert, hmGet, hk, hq, ih, Ne.symm h]

theorem hmGet_hmRemove_ne (m : HML) (k q : List Nat) (h : k ≠ q) :
    hmGet (hmRemove m k) q = hmGet m q := by
  induction m with
  | nil => simp [hmRemove]
  | cons kv rest ih =>
    by_cases hk : kv.1 = k
    · subst hk; simp [hmRemove, hmGet, h]
    · by_cases hq : kv.1 = q <;> simp [hmRemove, hmGet, hk, hq, ih, Ne.symm h]

/-- A batch entry that is skipped or targets another key leaves the lookup of
`q` unchanged. -/
theorem hmGet_applyBatchEntry (m : HML) (e : EntryM) (q : List Nat)
    (h : (e.key.data == q &&
          (match e.opType with
           | .delete => true
           | _ => e.value.isSome)) = false) :
    hmGet (applyBatchEntry m e) q = hmGet m q := by
  unfold applyBatchEntry
  match hop : e.opType, hv : e.value with
  | .put, some v =>
    simp only [hop, hv, Option.isSome_some, Bool.and_true, beq_eq_false_iff_ne] at h
    exact hmGet_hmInsert_ne m e.key.data v.data q h
  | .put, none => simp
  | .delete, _ =>
    simp only [hop, Bool.and_true, beq_eq_false_iff_ne] at h
    exact hmGet_hmRemove_ne m e.key.data q h
  | .merge, some v =>
    simp only [hop, hv, Option.isSome_some, Bool.and_true, beq_eq_false_iff_ne] at h
    exact hmGet_hmInsert_ne m e.key.data v.data q h
  | .merge, none => simp

/-- A whole batch whose entries never touch `q` leaves the lookup of `q`
unchanged. -/
theorem hmGet_foldl_applyBatchEntry (es : List EntryM) (m : HML) (q : List Nat)
    (h : (es.any (fun e =>
        e.key.data == q &&
          (match e.opType with
           | .delete => true
           | _ => e.value.isSome))) = false) :
    hmGet (es.foldl applyBatchEntry m) q = hmGet m q := by
  induction es generalizing m with
  | nil => rfl
  | cons e rest ih =>
    simp only [List.any_cons, Bool.or_eq_false_iff] at h
    simpa [List.foldl_cons, hmGet_applyBatchEntry m e q h.1] using
      (ih (applyBatchEntry m e) h.2).trans (hmGet_applyBatchEntry m e q h.1)

/-- An operation that does not write key `q` leaves the lookup of `q` in the
engine storage unchanged. -/
theorem hmGet_applyOp (s : SysM) (op : OpM) (q : List Nat)
    (h : opWritesKey op q = false) :
    hmGet (applyOp s op).engine.storage q = hmGet s.engine.storage q := by
  match op with
  | .put k v =>
    simp only [opWritesKey, beq_eq_false_iff_ne] at h
    exact hmGet_hmInsert_ne _ _ _ _ h
  | .del k =>
    simp only [opWritesKey, beq_eq_false_iff_ne] at h
    exact hmGet_hmRemove_ne _ _ _ h
  | .wbatch b =>
    simp only [opWritesKey] at h
    exact hmGet_foldl_applyBatchEntry b.operations s.engine.storage q h
  | .snap t => simp [applyOp, AuraEngineM.snapshot]
  | .close => rfl

/-- A sequence of operations none of which writes `q` leaves the lookup of
`q` unchanged. -/
theorem hmGet_applyOps (s : SysM) (ops : List OpM) (q : List Nat)
    (h : ∀ op ∈ ops, opWritesKey op q = false) :
    hmGet (applyOps s ops).engine.storage q = hmGet s.engine.storage q := by
  induction ops generalizing s with
  | nil => rfl
  | cons op rest ih =>
    have h1 := h op (List.mem_cons_self op rest)
    have h2 : ∀ o ∈ rest, opWritesKey o q = false := fun o ho =>
      h o (List.mem_cons_of_mem op ho)
    calc hmGet (applyOps s (op :: rest)).engine.storage q
        = hmGet (applyOp s op).engine.storage q := ih (applyOp s op) h2
      _ = hmGet s.engine.storage q := hmGet_applyOp s op q h1

/-- Applying one operation can only append to the caller-held snapshot list. -/
theorem applyOp_snaps_append (s : SysM) (op : OpM) :
    ∃ t, (applyOp s op).snaps = s.snaps ++ t := by
  cases op with
  | put k v => exact ⟨[], by simp [applyOp]⟩
  | del k => exact ⟨[], by simp [applyOp]⟩
  | wbatch b => exact ⟨[], by simp [applyOp]⟩
  | snap t' =>
    exact ⟨[{ data := s.engine.storage, timestamp := t' }], by simp [applyOp, AuraEngineM.snapshot]⟩
  | close => exact ⟨[], by simp [applyOp]⟩

/-- Applying any operation sequence can only append to the caller-held
snapshot list. -/
theorem applyOps_snaps_append (s : SysM) (ops : List OpM) :
    ∃ t, (applyOps s ops).snaps = s.snaps ++ t := by
  induction ops generalizing s with
  | nil => exact ⟨[], by simp [applyOps]⟩
  | cons op rest ih =>
    obtain ⟨t1, h1⟩ := applyOp_snaps_append s op
    obtain ⟨t2, h2⟩ := ih (applyOp s op)
    refine ⟨t1 ++ t2, ?_⟩
    show (applyOps (applyOp s op) rest).snaps = _
    rw [h2, h1, List.append_assoc]

/-! ### Claim theorems -/

/-- C1 (counterexample): the claim `get(k) = Some(v)` including metadata
fails.  Put a value whose `compressed` flag is set and whose `checksum` is
present: `get` rebuilds the value with `Value::new` and returns default
metadata, so the returned value differs from the value that was put. -/
theorem C1_counterexample :
    ((AuraEngineM.init.put (KeyM.new [0]) ⟨[1], true, some 7⟩).1.get (KeyM.new [0]))
      ≠ .ok (some (⟨[1], true, some 7⟩ : ValueM)) := by decide

/-- C1 (amended): after `put(k, v)` succeeds and no later operation writes
`k`, `get(k)` returns `Some(Value::new(v.data))` — the same bytes, with the
compression flag and checksum metadata reset to their defaults. -/
theorem C1_amended (s : SysM) (k : KeyM) (v : ValueM) (ops : List OpM)
    (h : ∀ op ∈ ops, opWritesKey op k.data = false) :
    (applyOps (applyOp s (.put k v)) ops).engine.get k
      = .ok (some (ValueM.new v.data)) := by
  show Except.ok ((hmGet (applyOps (applyOp s (.put k v)) ops).engine.storage k.data).map
    ValueM.new) = _
  rw [hmGet_applyOps _ _ _ h]
  show Except.ok ((hmGet (hmInsert s.engine.storage k.data v.data) k.data).map
    ValueM.new) = _
  rw [hmGet_hmInsert_self]
  rfl

/-- C1 (witness): instantiate the amended round-trip at `k = [0]`,
`v = [1]` with one later write to the unrelated key `[2]`. -/
theorem C1_witness :
    (∀ op ∈ ([OpM.put (KeyM.new [2]) (ValueM.new [5])] : List OpM),
        opWritesKey op (KeyM.new [0]).data = false) ∧
    (applyOps (applyOp ⟨AuraEngineM.init, []⟩ (.put (KeyM.new [0]) (ValueM.new [1])))
        [OpM.put (KeyM.new [2]) (ValueM.new [5])]).engine.get (KeyM.new [0])
      = .ok (some (ValueM.new [1])) :=
  ⟨by decide, C1_amended ⟨AuraEngineM.init, []⟩ (KeyM.new [0]) (ValueM.new [1])
    [OpM.put (KeyM.new [2]) (ValueM.new [5])] (by decide)⟩

/-- C2 (code bug): `VlogSegment::write_value` parses the whole segment
filename (`vlog_<16 hex>_<16 hex>.seg`) as a `u64`, which always fails, so
`unwrap_or(0)` makes every returned pointer carry `segment_id = 0` and
`is_valid()` is false — for the very first value written to the segment
created with id 1 at timestamp 0, the pointer is
`{segment_id = 0, offset = 28, length = 2}`, failing the claim that all
three fields are non-zero (and `VlogReader` cannot resolve segment 0, so
the read fails as well). -/
theorem C2_code_bug :
    ((vlogSegmentNew 1 0 true .lz4).writeValue (ValueM.new [104, 105]) 0).2.segmentId = 0 ∧
    ((vlogSegmentNew 1 0 true .lz4).writeValue (ValueM.new [104, 105]) 0).2.offset = 28 ∧
    ((vlogSegmentNew 1 0 true .lz4).writeValue (ValueM.new [104, 105]) 0).2.length = 2 ∧
    ((vlogSegmentNew 1 0 true .lz4).writeValue (ValueM.new [104, 105]) 0).2.isValid = false := by
  decide

/-- C3 (code bug): `scan` keeps keys with `key <= range.end` although
`Range.end` is documented "(exclusive)": with only key `[1]` stored and the
range `[[1], [1])` (where `start ≥ end` should yield the empty result and a
key equal to `end` should be excluded), scan returns that pair. -/
theorem C3_code_bug :
    ((AuraEngineM.init.put (KeyM.new [1]) (ValueM.new [9])).1.scan
        ⟨KeyM.new [1], KeyM.new [1], Option.none⟩)
      = .ok [(KeyM.new [1], ValueM.new [9])] := by decide

/-- C4 (code bug): `scan` iterates the engine's `HashMap` and applies no
sort, so the output order is the map's iteration order: after putting key
`[2]` then key `[1]`, scanning `[[0], [3]]` yields the keys in the order
`[2], [1]`, which is not strictly ascending. -/
theorem C4_code_bug :
    (((AuraEngineM.init.put (KeyM.new [2]) (ValueM.new [9])).1.put
        (KeyM.new [1]) (ValueM.new [8])).1.scan
        ⟨KeyM.new [0], KeyM.new [3], Option.none⟩)
      = .ok [(KeyM.new [2], ValueM.new [9]), (KeyM.new [1], ValueM.new [8])] ∧
    keysStrictAscending [[2], [1]] = false := by
  exact ⟨by decide, by decide⟩

/-- C5 (counterexample): a WAL file holding one complete `Delete` record
followed by a record whose length prefix announces 5 payload bytes of which
only 2 are present.  Replay returns the complete record and then stops with
an `Io` error (`read_exact` on the payload fails and is propagated by `?`),
contradicting the claim that payload truncation is treated as end-of-file
with no error. -/
theorem C5_counterexample :
    walReplayFile
        (([29, 0, 0, 0] ++ [2, 0, 0, 0] ++ [1, 0, 0, 0, 0, 0, 0, 0] ++ [7] ++
          [1, 0, 0, 0, 0, 0, 0, 0] ++ [2, 0, 0, 0, 0, 0, 0, 0]) ++ [5, 0, 0, 0, 1, 2])
      = ([.delete [7] 1 2], some .io) := by rfl

/-- C5 (amended): truncation inside the 4-byte length prefix is treated as
end-of-file (`read_record` returns `Ok(None)`); but when the full prefix is
present and the file ends before the announced payload length, `read_record`
raises an `Io` error instead of treating the truncation as end-of-file. -/
theorem C5_amended (bs : List Nat) :
    (bs.length < 4 → readRecord bs = .ok Option.none) ∧
    (4 ≤ bs.length → bs.length - 4 < leDecode (bs.take 4) →
      readRecord bs = .error .io) := by
  constructor
  · intro h
    unfold readRecord readBytes
    rw [if_neg (by omega)]
  · intro h4 hshort
    have h1 : readBytes 4 bs = some (bs.take 4, bs.drop 4) := by
      unfold readBytes; rw [if_pos h4]
    have h2 : readBytes (leDecode (bs.take 4)) (bs.drop 4) = Option.none := by
      unfold readBytes
      rw [if_neg (by simp only [List.length_drop]; omega)]
    simp only [readRecord, h1, h2]

/-- C5 (witness): the amended behaviour at the concrete inputs `[1, 2]`
(truncated length prefix) and `[5, 0, 0, 0, 1, 2]` (truncated payload). -/
theorem C5_witness :
    (([1, 2] : List Nat).length < 4 ∧ readRecord [1, 2] = .ok Option.none) ∧
    (4 ≤ ([5, 0, 0, 0, 1, 2] : List Nat).length ∧
      readRecord [5, 0, 0, 0, 1, 2] = .error .io) :=
  ⟨⟨by decide, (C5_amended [1, 2]).1 (by decide)⟩,
    ⟨by decide, (C5_amended [5, 0, 0, 0, 1, 2]).2 (by decide) (by decide)⟩⟩

/-- C6 (code bug): reinserting key `[97]` ("a").  In the skip list,
`find_node` leaves `currs[0]` at the predecessor of the target (its `pred`
and `curr` advance together), so the duplicate check in `insert` never
fires, the new node is silently linked in front of the old one, and `get`
— which compares the same predecessor node's key — returns `None` rather
than the newly inserted entry.  The B-tree and ART implementations do
return the new entry. -/
theorem C6_code_bug :
    ((SkipListM.empty.insert (EntryM.new (KeyM.new [97]) (ValueM.new [49]) 1 10)).insert
        (EntryM.new (KeyM.new [97]) (ValueM.new [50]) 2 20)).get (KeyM.new [97])
      = .ok Option.none ∧
    btreeGet
        (btreeInsert (btreeInsert [] (EntryM.new (KeyM.new [97]) (ValueM.new [49]) 1 10))
          (EntryM.new (KeyM.new [97]) (ValueM.new [50]) 2 20)) (KeyM.new [97])
      = .ok (some (EntryM.new (KeyM.new [97]) (ValueM.new [50]) 2 20)) ∧
    artGet
        (artInsert (artInsert [] (EntryM.new (KeyM.new [97]) (ValueM.new [49]) 1 10))
          (EntryM.new (KeyM.new [97]) (ValueM.new [50]) 2 20)) (KeyM.new [97])
      = .ok (some (EntryM.new (KeyM.new [97]) (ValueM.new [50]) 2 20)) := by
  refine ⟨by decide, by decide, by decide⟩

set_option maxRecDepth 8000 in
/-- C7 (code bug): `WalHeader::new` and `VlogHeader::new` leave the checksum
field at 0 and no code path ever stores `calculate_checksum()` into it, so
`validate()` is false for a freshly created header (here at
`created_at = 0`, with the vlog header using the default `Lz4` tag exactly
as the repository's own test `test_vlog_header_validation`, which asserts
`validate()` and therefore fails). -/
theorem C7_code_bug :
    (WalHeaderM.new 0).validate = false ∧
    (VlogHeaderM.new .lz4 0).validate = false := by
  exact ⟨by decide, by decide⟩

/-- C8: a snapshot copies the storage, and no later operation (put, delete,
write_batch, another snapshot, close) reaches a handed-out snapshot value:
every previously held snapshot — its captured key-value data included — is
unchanged by any operation sequence. -/
theorem C8_snapshot_immutable (s : SysM) (ops : List OpM) (i : Nat)
    (h : i < s.snaps.length) :
    (applyOps s ops).snaps[i]? = s.snaps[i]? := by
  obtain ⟨t, ht⟩ := applyOps_snaps_append s ops
  rw [ht, List.getElem?_append, if_pos h]

set_option maxRecDepth 8000 in
/-- C8 (witness): a system holding one snapshot, mutated by a put and a
delete of the snapshotted key; the held snapshot is unchanged. -/
theorem C8_witness :
    0 < (SysM.mk AuraEngineM.init [⟨[([3], [4])], 5⟩]).snaps.length ∧
    (applyOps (SysM.mk AuraEngineM.init [⟨[([3], [4])], 5⟩])
        [OpM.put (KeyM.new [3]) (ValueM.new [9]), OpM.del (KeyM.new [3])]).snaps[0]?
      = (SysM.mk AuraEngineM.init [⟨[([3], [4])], 5⟩]).snaps[0]? :=
  ⟨by decide, C8_snapshot_immutable (SysM.mk AuraEngineM.init [⟨[([3], [4])], 5⟩])
    [OpM.put (KeyM.new [3]) (ValueM.new [9]), OpM.del (KeyM.new [3])] 0 (by decide)⟩

/-- C9: every public engine operation returns `Ok` in every state — the
bodies contain no reachable error branch — `close` does nothing but set the
`closed` flag, and operations performed after `close` still succeed and
take effect on the storage exactly as before. -/
theorem C9_no_error_branch (st : AuraEngineM) (k q : KeyM) (v : ValueM)
    (r : RangeM) (b : BatchM) (t : Nat) :
    (st.put k v).2 = .ok () ∧
    st.get q = .ok ((hmGet st.storage q.data).map ValueM.new) ∧
    (st.delete q).2 = .ok () ∧
    (∃ rows, st.scan r = .ok rows) ∧
    (st.writeBatch b).2 = .ok () ∧
    (∃ sn, st.snapshot t = .ok sn) ∧
    st.close.2 = .ok () ∧
    st.close.1 = { st with closed := true } ∧
    (st.close.1.put k v).1
      = { st with closed := true, storage := hmInsert st.storage k.data v.data } ∧
    (st.close.1.put k v).2 = .ok () ∧
    st.close.1.get q = st.get q :=
  ⟨rfl, rfl, rfl, ⟨_, rfl⟩, rfl, ⟨_, rfl⟩, rfl, rfl, rfl, rfl, rfl⟩

/-- C10: `write_batch` applies each entry as follows and always returns
`Ok(())`: a `Put` or `Merge` entry without an inline value — for example one
carrying only a value pointer — is silently skipped (the storage is
unchanged); a `Put` or `Merge` entry with an inline value installs it; a
`Delete` entry removes the key. -/
theorem C10_write_batch_skips (m : HML) (st : AuraEngineM) (k : KeyM)
    (v : ValueM) (p : ValuePointerM) (seq ts : Nat) (b : BatchM) :
    applyBatchEntry m
        { key := k, value := Option.none, valuePointer := some p
          sequence := seq, opType := .put, timestamp := ts } = m ∧
    applyBatchEntry m
        { key := k, value := Option.none, valuePointer := some p
          sequence := seq, opType := .merge, timestamp := ts } = m ∧
    applyBatchEntry m
        { key := k, value := some v, valuePointer := Option.none
          sequence := seq, opType := .put, timestamp := ts }
      = hmInsert m k.data v.data ∧
    applyBatchEntry m
        { key := k, value := some v, valuePointer := Option.none
          sequence := seq, opType := .merge, timestamp := ts }
      = hmInsert m k.data v.data ∧
    applyBatchEntry m (EntryM.mkDelete k seq ts) = hmRemove m k.data ∧
    (st.writeBatch b).2 = .ok () :=
  ⟨rfl, rfl, rfl, rfl, rfl, rfl⟩

end AuraDB
